import Mathlib

/-!
Verification of the iterative deep-research orchestration engine
(`02_app/_core/workflow.py`, `llm_processing.py`, `llm_client.py`,
`utils.py`, `main.py`) against its natural-language specification.

The Python code is shallowly embedded: strings are `String`/`List Char`,
pandas DataFrames become lists of row structures, LLM/search collaborators
become oracle functions supplied per iteration, and Python exceptions become
`Except PyErr`.  Dynamic JSON values (the output of `json.loads`) are
modelled by the inductive type `JVal`, with Python `None` identified with
JSON null (exactly as in CPython, where `json.loads "null"` returns `None`).
-/

/-- Python runtime errors that the embedded code can raise. -/
inductive PyErr where
  /-- `TypeError: 'NoneType' object is not callable` - calling a `None`
  `status_callback`. -/
  | noneNotCallable
  /-- `AttributeError` - calling `.get` on a parsed JSON value that is not a
  dict. -/
  | attributeErrorGet
  /-- `TypeError` from `pd.concat([None, df])`. -/
  | concatNone
deriving DecidableEq, Repr

/-- Dynamic values produced by `json.loads` (and Python `None`, which CPython
uses both for JSON `null` and as the parse-failure marker). Strings are kept
as `List Char`; numbers keep their source literal (the embedded claims never
compare numeric magnitudes). Object fields are in dict insertion order with
unique keys (duplicates collapsed last-wins during parsing, as in CPython). -/
inductive JVal where
  | jnull : JVal
  | jbool : Bool → JVal
  | jnum : List Char → JVal
  | jstr : List Char → JVal
  | jarr : List JVal → JVal
  | jobj : List (List Char × JVal) → JVal

/-- `v is None` in Python (recall Python `None` = parsed JSON null here). -/
def JVal.isNull : JVal → Bool
  | .jnull => true
  | _ => false

/-- The backtick character (written via its code point so that the source of
this development contains backticks only inside string literals). -/
def btick : Char := Char.ofNat 96

/-- Python `str.isspace` / regex `\s` character class, restricted to the
code points that can actually appear here (ASCII whitespace including the
information-separator block, plus NEL/NBSP; the remaining Unicode space code
points are irrelevant to the embedded inputs but included for the BMP ones
used by CPython). -/
def pyIsSpace (c : Char) : Bool :=
  c = ' ' || c = '\t' || c = '\n' || c = '\r' || c = '\x0b' || c = '\x0c' ||
  c = '\x1c' || c = '\x1d' || c = '\x1e' || c = '\x1f' ||
  c = Char.ofNat 0x85 || c = Char.ofNat 0xa0 || c = Char.ofNat 0x1680 ||
  (Char.ofNat 0x2000 ≤ c && c ≤ Char.ofNat 0x200a) ||
  c = Char.ofNat 0x2028 || c = Char.ofNat 0x2029 || c = Char.ofNat 0x202f ||
  c = Char.ofNat 0x205f || c = Char.ofNat 0x3000

/-- Python `str.strip()` with no argument: drop leading and trailing
whitespace. -/
def pyStrip (s : List Char) : List Char :=
  ((s.dropWhile pyIsSpace).reverse.dropWhile pyIsSpace).reverse

/-- JSON inter-token whitespace (`json.decoder.WHITESPACE_STR`). -/
def jsonWs (c : Char) : Bool :=
  c = ' ' || c = '\t' || c = '\n' || c = '\r'

/-- Skip JSON whitespace. -/
def jsonSkipWs (s : List Char) : List Char := s.dropWhile jsonWs

/-- Hex digit value, for `\uXXXX` string escapes. -/
def hexVal (c : Char) : Option Nat :=
  let n := c.toNat
  if 48 ≤ n && n ≤ 57 then some (n - 48)
  else if 97 ≤ n && n ≤ 102 then some (n - 87)
  else if 65 ≤ n && n ≤ 70 then some (n - 55)
  else none

/-- Decimal digit test. -/
def isDigit (c : Char) : Bool := 48 ≤ c.toNat && c.toNat ≤ 57

/-- JSON string body parser (strict mode: unescaped control characters are
rejected), called after the opening quote; returns the decoded content and
the input remaining after the closing quote.  Lone `\uXXXX` surrogates,
which CPython keeps as surrogate code units, fall outside Lean's `Char`
scalar values and decode to the default character; no embedded input uses
them. -/
def parseJStr : Nat → List Char → Option (List Char × List Char)
  | 0, _ => none
  | fuel + 1, s =>
    match s with
    | [] => none
    | '"' :: rest => some ([], rest)
    | '\\' :: esc =>
      match esc with
      | '"' :: r => (parseJStr fuel r).map (fun p => ('"' :: p.1, p.2))
      | '\\' :: r => (parseJStr fuel r).map (fun p => ('\\' :: p.1, p.2))
      | '/' :: r => (parseJStr fuel r).map (fun p => ('/' :: p.1, p.2))
      | 'b' :: r => (parseJStr fuel r).map (fun p => ('\x08' :: p.1, p.2))
      | 'f' :: r => (parseJStr fuel r).map (fun p => ('\x0c' :: p.1, p.2))
      | 'n' :: r => (parseJStr fuel r).map (fun p => ('\n' :: p.1, p.2))
      | 'r' :: r => (parseJStr fuel r).map (fun p => ('\r' :: p.1, p.2))
      | 't' :: r => (parseJStr fuel r).map (fun p => ('\t' :: p.1, p.2))
      | 'u' :: h1 :: h2 :: h3 :: h4 :: r =>
        match hexVal h1, hexVal h2, hexVal h3, hexVal h4 with
        | some a, some b, some c, some d =>
          let n := ((a * 16 + b) * 16 + c) * 16 + d
          if 0xd800 ≤ n && n ≤ 0xdbff then
            match r with
            | '\\' :: 'u' :: g1 :: g2 :: g3 :: g4 :: r2 =>
              match hexVal g1, hexVal g2, hexVal g3, hexVal g4 with
              | some a2, some b2, some c2, some d2 =>
                let m := ((a2 * 16 + b2) * 16 + c2) * 16 + d2
                if 0xdc00 ≤ m && m ≤ 0xdfff then
                  (parseJStr fuel r2).map (fun p =>
                    (Char.ofNat (0x10000 + (n - 0xd800) * 0x400 + (m - 0xdc00)) :: p.1, p.2))
                else (parseJStr fuel r).map (fun p => (Char.ofNat n :: p.1, p.2))
              | _, _, _, _ => (parseJStr fuel r).map (fun p => (Char.ofNat n :: p.1, p.2))
            | _ => (parseJStr fuel r).map (fun p => (Char.ofNat n :: p.1, p.2))
          else (parseJStr fuel r).map (fun p => (Char.ofNat n :: p.1, p.2))
        | _, _, _, _ => none
      | _ => none
    | c :: rest =>
      if c.toNat < 32 then none
      else (parseJStr fuel rest).map (fun p => (c :: p.1, p.2))

/-- JSON number literal (`NUMBER_RE`): `-?(0|[1-9]\d*)(\.\d+)?([eE][+-]?\d+)?`.
Returns the literal consumed and the rest. -/
def parseJNum (s : List Char) : Option (List Char × List Char) :=
  let (sign, s1) :=
    match s with
    | '-' :: r => (['-'], r)
    | _ => (([] : List Char), s)
  match s1 with
  | c :: r =>
    if c = '0' then
      let (frac, r2) := parseJNumFrac r
      some (sign ++ [c] ++ frac, r2)
    else if isDigit c then
      let digits := r.takeWhile isDigit
      let r1 := r.dropWhile isDigit
      let (frac, r2) := parseJNumFrac r1
      some (sign ++ [c] ++ digits ++ frac, r2)
    else none
  | [] => none
where
  /-- Optional fraction and exponent parts. -/
  parseJNumFrac (s : List Char) : List Char × List Char :=
    let (fr, s1) :=
      match s with
      | '.' :: r =>
        let ds := r.takeWhile isDigit
        if ds = [] then (([] : List Char), s)
        else ('.' :: ds, r.dropWhile isDigit)
      | _ => ([], s)
    let (ex, s2) :=
      match s1 with
      | e :: r =>
        if e = 'e' || e = 'E' then
          let (esign, r1) :=
            match r with
            | '+' :: r2 => (['+'], r2)
            | '-' :: r2 => (['-'], r2)
            | _ => (([] : List Char), r)
          let ds := r1.takeWhile isDigit
          if ds = [] then (([] : List Char), s1)
          else (e :: esign ++ ds, r1.dropWhile isDigit)
        else ([], s1)
      | [] => ([], s1)
    (fr ++ ex, s2)

/-- Insert a key/value pair into a parsed object with CPython `dict`
semantics: an existing key keeps its position and gets the new value,
otherwise the pair is appended. -/
def objInsert (fs : List (List Char × JVal)) (k : List Char) (v : JVal) :
    List (List Char × JVal) :=
  if fs.any (fun p => p.1 = k) then
    fs.map (fun p => if p.1 = k then (p.1, v) else p)
  else fs ++ [(k, v)]

mutual

/-- JSON value parser (CPython `json.loads` grammar, including the
non-standard `NaN` / `Infinity` / `-Infinity` constants that CPython accepts
by default). The caller has already skipped leading whitespace. -/
def parseJVal : Nat → List Char → Option (JVal × List Char)
  | 0, _ => none
  | fuel + 1, s =>
    match s with
    | 'n' :: 'u' :: 'l' :: 'l' :: r => some (.jnull, r)
    | 't' :: 'r' :: 'u' :: 'e' :: r => some (.jbool true, r)
    | 'f' :: 'a' :: 'l' :: 's' :: 'e' :: r => some (.jbool false, r)
    | 'N' :: 'a' :: 'N' :: r => some (.jnum ['N', 'a', 'N'], r)
    | 'I' :: 'n' :: 'f' :: 'i' :: 'n' :: 'i' :: 't' :: 'y' :: r =>
      some (.jnum "Infinity".toList, r)
    | '-' :: 'I' :: 'n' :: 'f' :: 'i' :: 'n' :: 'i' :: 't' :: 'y' :: r =>
      some (.jnum "-Infinity".toList, r)
    | '"' :: r => (parseJStr fuel r).map (fun p => (.jstr p.1, p.2))
    | '[' :: r =>
      match jsonSkipWs r with
      | ']' :: r2 => some (.jarr [], r2)
      | r1 => (parseJArr fuel r1).map (fun p => (.jarr p.1, p.2))
    | '{' :: r =>
      match jsonSkipWs r with
      | '}' :: r2 => some (.jobj [], r2)
      | r1 =>
        (parseJObj fuel r1).map (fun p =>
          (.jobj (p.1.foldl (fun acc kv => objInsert acc kv.1 kv.2) []), p.2))
    | _ => (parseJNum s).map (fun p => (.jnum p.1, p.2))

/-- Array elements, positioned at the first element. -/
def parseJArr : Nat → List Char → Option (List JVal × List Char)
  | 0, _ => none
  | fuel + 1, s =>
    match parseJVal fuel s with
    | none => none
    | some (v, r) =>
      match jsonSkipWs r with
      | ',' :: r2 => (parseJArr fuel (jsonSkipWs r2)).map (fun p => (v :: p.1, p.2))
      | ']' :: r2 => some ([v], r2)
      | _ => none

/-- Object members, positioned at the first key; returns the raw pair list in
source order (duplicates collapsed by the caller). -/
def parseJObj : Nat → List Char → Option (List (List Char × JVal) × List Char)
  | 0, _ => none
  | fuel + 1, s =>
    match s with
    | '"' :: r =>
      match parseJStr fuel r with
      | none => none
      | some (k, r1) =>
        match jsonSkipWs r1 with
        | ':' :: r2 =>
          match parseJVal fuel (jsonSkipWs r2) with
          | none => none
          | some (v, r3) =>
            match jsonSkipWs r3 with
            | ',' :: r4 =>
              match jsonSkipWs r4 with
              | r5 => (parseJObj fuel r5).map (fun p => ((k, v) :: p.1, p.2))
            | '}' :: r4 => some ([(k, v)], r4)
            | _ => none
        | _ => none
    | _ => none

end

/-- `json.loads`: skip whitespace, parse one value, require only whitespace
after it; `none` models a raised `json.JSONDecodeError`. -/
def json_loads (s : List Char) : Option JVal :=
  match parseJVal (2 * s.length + 2) (jsonSkipWs s) with
  | none => none
  | some (v, rest) => if jsonSkipWs rest = [] then some v else none

/-- The lazy group of the fenced-block regex: content of the input up to (and
exclusive of) the first occurrence of newline-plus-triple-backtick, or `none`
if there is no such occurrence. -/
def findFence : List Char → Option (List Char)
  | [] => none
  | c :: rest =>
    if ("\n```".toList).isPrefixOf (c :: rest) then some []
    else (findFence rest).map (fun l => c :: l)

/-- Positions (ascending) of newline characters in a list. -/
def idxsOf : List Char → Nat → List Nat
  | [], _ => []
  | c :: r, i => if c = '\n' then i :: idxsOf r (i + 1) else idxsOf r (i + 1)

/-- First `some` produced along a list of candidates (regex backtracking
order). -/
def firstSome : List Nat → (Nat → Option (List Char)) → Option (List Char)
  | [], _ => none
  | k :: ks, f =>
    match f k with
    | some v => some v
    | none => firstSome ks f

/-- The `\s*\n(.*?)` tail of the fenced-block regex, positioned right after
the (optionally tagged) opening fence: the greedy `\s*` commits to the last
newline of the whitespace run and backtracks towards earlier newlines, and
for each the lazy group runs up to the first closing `\n`-fence. -/
def fencedTail (r : List Char) : Option (List Char) :=
  firstSome ((idxsOf (r.takeWhile pyIsSpace) 0).reverse)
    (fun k => findFence (r.drop (k + 1)))

/-- One anchored attempt of `re.search(r"```(?:json)?\s*\n(.*?)\n```", ., re.DOTALL)`
at the current position: the greedy optional tag prefers consuming `json`. -/
def fencedAt (s : List Char) : Option (List Char) :=
  if ("```".toList).isPrefixOf s then
    let rest := s.drop 3
    match (if ("json".toList).isPrefixOf rest then fencedTail (rest.drop 4) else none) with
    | some g => some g
    | none => fencedTail rest
  else none

/-- `re.search` semantics: leftmost successful anchored attempt wins. -/
def fencedSearch : List Char → Option (List Char)
  | [] => none
  | c :: rest =>
    match fencedAt (c :: rest) with
    | some g => some g
    | none => fencedSearch rest

/-- `_parse_json_response` (llm_processing.py): strict parse of the stripped
text, else the stripped contents of a fenced code block, else the failure
marker.  Python's `None` result (covering both the failure marker and a
successfully parsed JSON `null`) is `JVal.jnull`. -/
def parse_json_response (s : List Char) : JVal :=
  if s = [] then .jnull
  else
    match json_loads (pyStrip s) with
    | some v => v
    | none =>
      match fencedSearch s with
      | some grp =>
        match json_loads (pyStrip grp) with
        | some v => v
        | none => .jnull
      | none => .jnull

/-- Python `str.lower` restricted to ASCII (the boolean-word candidates). -/
def pyLower (s : List Char) : List Char :=
  s.map (fun c => if 'A' ≤ c && c ≤ 'Z' then Char.ofNat (c.toNat + 32) else c)

/-- `_to_bool` (llm_processing.py): bools pass through, the case-insensitive
words true/1/yes and false/0/no map to bools, everything else to `None`. -/
def pyToBool (v : JVal) : JVal :=
  match v with
  | .jbool b => .jbool b
  | .jstr s =>
    let l := pyLower s
    if l = "true".toList || l = "1".toList || l = "yes".toList then .jbool true
    else if l = "false".toList || l = "0".toList || l = "no".toList then .jbool false
    else .jnull
  | _ => .jnull

/-- `parsed.get(key)` on a parsed JSON object: Python's `dict.get` returns
`None` (= `jnull`) for a missing key. -/
def pyGet (fs : List (List Char × JVal)) (k : List Char) : JVal :=
  match fs.find? (fun p => p.1 = k) with
  | some p => p.2
  | none => .jnull

/-- Whether a JSON number literal denotes (integer or float) zero. -/
def numIsZero (s : List Char) : Bool :=
  let s1 := if s.head? = some '-' then s.tail else s
  let mant := s1.takeWhile (fun c => c ≠ 'e' && c ≠ 'E')
  let digits := mant.filter (fun c => c ≠ '.')
  !digits.isEmpty && digits.all (fun c => c = '0')

/-- Python truthiness of a parsed JSON value (`if parsed:` etc.). -/
def pyTruthy (v : JVal) : Bool :=
  match v with
  | .jnull => false
  | .jbool b => b
  | .jnum s => !numIsZero s
  | .jstr s => !s.isEmpty
  | .jarr xs => !xs.isEmpty
  | .jobj fs => !fs.isEmpty

/-- A row of the `execute_searches` result DataFrame (search.py):
`identifier` is the owning document id, `chunk_text` the passage text,
`uuid` the passage id. -/
structure SearchRow where
  identifier : Int
  chunk_text : String
  uuid : String
deriving DecidableEq, Repr

/-- A row of the in-memory document corpus (`self.docs`), with the fields the
workflow reads. -/
structure DocRow where
  identifier : Int
  title : String
  text : String
  date : String
  link : String
deriving DecidableEq, Repr

/-- The mutable state of `ResearchWorkflow`, as set up by `_initialize_state`
and mutated by `run_iteration`.  `final_docs` rows carry their base corpus row
together with the `analysis` column. -/
structure WFState where
  previous_queries : List String
  previous_chunk_ids : List String
  previous_doc_ids : List Int
  previous_considerations : List JVal
  previous_analysis_results : List String
  final_docs : Option (List (DocRow × String))
  iteration : Nat

/-- `_initialize_state`. -/
def initialize_state : WFState :=
  { previous_queries := []
    previous_chunk_ids := []
    previous_doc_ids := []
    previous_considerations := []
    previous_analysis_results := []
    final_docs := none
    iteration := 0 }

/-- The external collaborators consulted during one `run_iteration` call:
the parsed query list produced by `create_queries`, the aggregated
`execute_searches` rows, the per-prompt structured LLM responses used by
`check_relevance` (`.ok none` models a `None` message content, `.error`
a provider exception swallowed by the parallel utility), the per-prompt
free-text LLM call used by `analyze_documents`, and the raw response of the
reflection call. -/
structure Env where
  queries : List String
  searchRows : List SearchRow
  relLLM : String → Except String (Option String)
  anaLLM : String → Except String String
  reflectResp : Option String

/-- The value stored by the parallel utility for one item: the call's return
value, or the inline error string `f"Error: {exc}"` when the call raised. -/
def parallelOutcome (f : α → Except String β) (x : α) : β ⊕ String :=
  match f x with
  | .ok b => .inl b
  | .error e => .inr ("Error: " ++ e)

/-- `call_function_in_parallel` (utils.py), denotationally: one outcome per
prompt, index-aligned.  `call_function_in_parallel_sched` below models the
actual thread-pool execution; the C5 theorem shows every completion order
produces exactly this list. -/
def call_function_in_parallel (prompt_list : List α) (f : α → Except String β) :
    List (β ⊕ String) :=
  prompt_list.map (parallelOutcome f)

/-- One future completing: store its outcome at its own submission index. -/
def schedStep (prompt_list : List α) (f : α → Except String β)
    (results : List (Option (β ⊕ String))) (i : Nat) : List (Option (β ⊕ String)) :=
  match prompt_list[i]? with
  | some p => results.set i (some (parallelOutcome f p))
  | none => results

/-- The thread-pool execution of `call_function_in_parallel`: `results` starts
as `[None] * len(prompt_list)`, and `as_completed` yields the futures in an
arbitrary completion order `order`; each completed future stores its outcome
at its own submission index. -/
def call_function_in_parallel_sched (prompt_list : List α)
    (f : α → Except String β) (order : List Nat) : List (Option (β ⊕ String)) :=
  order.foldl (schedStep prompt_list f) (List.replicate prompt_list.length none)

/-- `FORMAT_RESULT.format(user_query=.., chunk_text=..)` (prompts.py). -/
def fmtFormatResult (uq chunk : String) : String :=
  "Frage des Experten:\n" ++ uq ++ "\n\nTextabschnitt aus Dokument:\n" ++ chunk

/-- `ANALYZE_DOCUMENT.format(...)` (prompts.py), with the document row's
fields spliced into the stripped template. -/
def fmtAnalyzeDocument (uq : String) (r : DocRow) : String :=
  "Du bist ein Rechercheassistent, spezialisiert auf Dokumente vom Kanton Zürich.\n\nDir werden eine oder mehrere Fragen und ein Ausschnitt aus einem Dokument vorgelegt. Deine Aufgabe ist es, das Dokument sorgfältig zu analysieren, relevante Informationen in Bezug auf die Frage(n) zu extrahieren und eine prägnante Zusammenfassung zu erstellen.\n\nWichtige Hinweise:\n- Konsolidiere die wichtigsten Informationen und Erkenntnisse\n- Dokumentiere dabei sorgfältig die Quelle(n) jeder Information, indem du relevante Textstellen aus dem Dokument zitierst und Gesetzesstellen oder andere relevante Quellen angibst.\n- Das Ergebnis sollte eine gut geschriebene Zusammenfassung oder ein Bericht auf Basis der Suchergebnisse sein.\n- Beziehe nur Informationen aus den Suchergebnissen ein, erfinde nichts.\n\nHier ist die Frage bzw. Fragen des Experten:\n" ++
  uq ++
  "\n\nHier das Dokument vom Kanton Zürich:\n\nTitel\n" ++ r.title ++
  "\n\nDatum\n" ++ r.date ++
  "\n\nLink zu Dokument\n" ++ r.link ++
  "\n\nDokument-Text\n" ++ r.text

/-- One step of `_parse_relevance_results` (llm_processing.py): a falsy item
gives `(None, None)`; a parsed truthy dict gives
`(_to_bool(parsed.get("relevance")), parsed.get("reasoning"))`; a parsed
truthy non-dict raises `AttributeError` on `.get`; any other parse outcome
gives `(None, None)`. -/
def relCheckOne (item : Option String) : Except PyErr (JVal × JVal) :=
  match item with
  | none => .ok (.jnull, .jnull)
  | some s =>
    if s.isEmpty then .ok (.jnull, .jnull)
    else
      let parsed := parse_json_response s.toList
      if pyTruthy parsed then
        match parsed with
        | .jobj fs =>
          .ok (pyToBool (pyGet fs "relevance".toList), pyGet fs "reasoning".toList)
        | _ => .error .attributeErrorGet
      else .ok (.jnull, .jnull)

/-- `_parse_relevance_results`: the item loop, aborted by the first
`AttributeError`. -/
def parse_relevance_results : List (Option String) → Except PyErr (List (JVal × JVal))
  | [] => .ok []
  | item :: rest =>
    match relCheckOne item with
    | .error e => .error e
    | .ok c =>
      match parse_relevance_results rest with
      | .error e => .error e
      | .ok cs => .ok (c :: cs)

/-- The plain string Python stores in the results list for one item of a
structured-call batch: the message content (possibly `None`), or the inline
error string. -/
def sumToItem (x : (Option String) ⊕ String) : Option String :=
  match x with
  | .inl o => o
  | .inr e => some e

/-- The pandas nullable-boolean mask test used by
`data[data["relevance"]]`: rows whose verdict is `True` are kept, `False`
and `NA` (from `None` verdicts) are dropped. -/
def maskTrue (v : JVal) : Bool :=
  match v with
  | .jbool true => true
  | _ => false

/-- `check_relevance` (llm_processing.py): one structured call per passage
row via the parallel utility, verdicts parsed by
`_parse_relevance_results`, and the row set filtered by the nullable-boolean
relevance mask.  The added `relevance`/`reasoning` columns are not read
downstream and are dropped here. -/
def check_relevance (uq : String) (data : List SearchRow)
    (llm : String → Except String (Option String)) : Except PyErr (List SearchRow) :=
  let prompts := data.map (fun r => fmtFormatResult uq r.chunk_text)
  let results := call_function_in_parallel prompts llm
  let items := results.map sumToItem
  match parse_relevance_results items with
  | .error e => .error e
  | .ok checks => .ok (((data.zip checks).filter (fun p => maskTrue p.2.1)).map (fun p => p.1))

/-- Flatten a parallel-utility outcome into the plain string Python stores in
the results list (both branches are strings there). -/
def sumFlat (x : String ⊕ String) : String :=
  match x with
  | .inl s => s
  | .inr e => e

/-- `analyze_documents` (llm_processing.py): one free-text call per corpus
row whose identifier is in `document_ids`, in corpus row order, via the
parallel utility. -/
def analyze_documents (uq : String) (document_ids : List Int) (data : List DocRow)
    (call : String → Except String String) : List String :=
  let relevant_docs := data.filter (fun r => decide (r.identifier ∈ document_ids))
  let prompts := relevant_docs.map (fun r => fmtAnalyzeDocument uq r)
  (call_function_in_parallel prompts call).map sumFlat

/-- `reflect_task_status` (llm_processing.py), as a function of the raw
structured-call response: a falsy response or falsy/failed parse gives
`(None, None)`; a truthy parsed dict gives
`(parsed.get("finished"), parsed.get("reflection"))` - note: no `_to_bool`
normalisation; a truthy parsed non-dict raises `AttributeError`. -/
def reflect_task_status (response : Option String) : Except PyErr (JVal × JVal) :=
  match response with
  | none => .ok (.jnull, .jnull)
  | some s =>
    if s.isEmpty then .ok (.jnull, .jnull)
    else
      let parsed := parse_json_response s.toList
      if pyTruthy parsed then
        match parsed with
        | .jobj fs => .ok (pyGet fs "finished".toList, pyGet fs "reflection".toList)
        | _ => .error .attributeErrorGet
      else .ok (.jnull, .jnull)

/-- `drop_duplicates` / `unique` with a set of already-seen keys: keep the
first occurrence of each key, preserving order. -/
def dedupKeepFirstAux {α κ : Type} [DecidableEq κ] (key : α → κ) (seen : List κ) :
    List α → List α
  | [] => []
  | x :: xs =>
    if key x ∈ seen then dedupKeepFirstAux key seen xs
    else x :: dedupKeepFirstAux key (key x :: seen) xs

/-- `drop_duplicates` / `unique`: keep the first occurrence of each key,
preserving order. -/
def dedupKeepFirst {α κ : Type} [DecidableEq κ] (key : α → κ) (l : List α) : List α :=
  dedupKeepFirstAux key [] l

/-- `ResearchWorkflow.run_iteration` (workflow.py).  `cb` records whether a
`status_callback` was supplied (`True`) or left at its default `None`
(`False`): the callback at the zero-queries return is invoked without the
`if status_callback:` guard, so `cb = false` raises there, and the second
status update (before the searches) likewise; all later callback sites are
only reachable with a callable callback.  Returns the updated state together
with the Python return pair `(finished, final_docs)`. -/
def run_iteration (docs : List DocRow) (st : WFState) (uq : String)
    (iteration : Nat) (cb : Bool) (iterative : Bool) (env : Env) :
    Except PyErr (WFState × JVal × Option (List (DocRow × String))) :=
  let search_queries := env.queries
  let st1 := { st with previous_queries := st.previous_queries ++ search_queries }
  if search_queries.length = 0 then
    if cb then .ok (st1, .jbool false, st1.final_docs) else .error .noneNotCallable
  else if !cb then .error .noneNotCallable
  else
    let search_results :=
      (dedupKeepFirst (fun r => r.uuid) env.searchRows).filter
        (fun r => decide (r.uuid ∉ st1.previous_chunk_ids))
    let st2 := { st1 with
      previous_chunk_ids :=
        st1.previous_chunk_ids ++
          dedupKeepFirst (fun u => u) (search_results.map (fun r => r.uuid)) }
    if search_results.length = 0 then .ok (st2, .jbool false, st2.final_docs)
    else
      match check_relevance uq search_results env.relLLM with
      | .error e => .error e
      | .ok relevance_checks =>
        let relevant_doc_ids :=
          (dedupKeepFirst (fun x => x) (relevance_checks.map (fun r => r.identifier))).filter
            (fun x => decide (x ∉ st2.previous_doc_ids))
        let st3 := { st2 with previous_doc_ids := st2.previous_doc_ids ++ relevant_doc_ids }
        if relevant_doc_ids.length = 0 then .ok (st3, .jbool false, st3.final_docs)
        else
          let analysis_results := analyze_documents uq relevant_doc_ids docs env.anaLLM
          let st4 := { st3 with
            previous_analysis_results := st3.previous_analysis_results ++ analysis_results }
          let tmp_docs :=
            (docs.filter (fun r => decide (r.identifier ∈ relevant_doc_ids))).zip
              analysis_results
          match (if iteration = 0 then some tmp_docs
                 else st4.final_docs.map (fun old => old ++ tmp_docs)) with
          | none => .error .concatNone
          | some fd =>
            let st5 := { st4 with final_docs := some fd }
            if !iterative then .ok (st5, .jbool true, some fd)
            else
              match reflect_task_status env.reflectResp with
              | .error e => .error e
              | .ok (finished, considerations) =>
                let st6 := { st5 with
                  previous_considerations := st5.previous_considerations ++ [considerations] }
                .ok (st6, if pyTruthy finished then finished else .jbool false, some fd)

/-- The research-iteration loop of `process_query` (main.py, lines 163-201):
each loop index consumes one oracle environment, the iteration result is
checked against the break conditions, and the number of executed iterations
is returned with the final state.  The loop always passes the (callable)
`update_status` callback. -/
def driver_loop (docs : List DocRow) (uq : String) (iterative : Bool)
    (maxIter : Nat) : WFState → Nat → List Env → Except PyErr (Nat × WFState)
  | st, _, [] => .ok (0, st)
  | st, k, e :: es =>
    match run_iteration docs st uq k true iterative e with
    | .error err => .error err
    | .ok (st', fin, fd) =>
      if fin.isNull || fd.isNone then .ok (1, st')
      else if !iterative || pyTruthy fin || decide (maxIter - 1 ≤ k) then .ok (1, st')
      else
        match driver_loop docs uq iterative maxIter st' (k + 1) es with
        | .error err => .error err
        | .ok (n, stf) => .ok (n + 1, stf)

/-- Number of iterations the driver loop executed (0 for a crashed run). -/
def driverCount (r : Except PyErr (Nat × WFState)) : Nat :=
  match r with
  | .ok (n, _) => n
  | .error _ => 0

/-- The states a run passes through: the initial state followed by the state
after each successful `run_iteration` call, the calls being numbered 0, 1, ...
as in the driver loop. -/
def runTraceAux (docs : List DocRow) (uq : String) (cb iterative : Bool) :
    WFState → Nat → List Env → List WFState
  | st, _, [] => [st]
  | st, k, e :: es =>
    st ::
      (match run_iteration docs st uq k cb iterative e with
       | .error _ => []
       | .ok (st', _, _) => runTraceAux docs uq cb iterative st' (k + 1) es)

/-- The trace of a run started from the freshly initialized state. -/
def runTrace (docs : List DocRow) (uq : String) (cb iterative : Bool)
    (envs : List Env) : List WFState :=
  runTraceAux docs uq cb iterative initialize_state 0 envs

/-- Document identifiers of a list of accumulated rows. -/
def rowIds (rows : List (DocRow × String)) : List Int :=
  rows.map (fun p => p.1.identifier)

/-- Document identifiers accumulated in `final_docs`. -/
def finalIds (st : WFState) : List Int :=
  match st.final_docs with
  | none => []
  | some rows => rowIds rows

/-- The C2 bookkeeping invariant: no passage uuid recorded twice, no document
id recorded twice, no document id on two `final_docs` rows, and every
accumulated document id is recorded in `previous_doc_ids` (so the
`not in previous_doc_ids` filter shields it from re-filtering and
re-analysis). -/
def InvC2 (st : WFState) : Prop :=
  st.previous_chunk_ids.Nodup ∧ st.previous_doc_ids.Nodup ∧
  (finalIds st).Nodup ∧ (∀ i ∈ finalIds st, i ∈ st.previous_doc_ids)

/-- Growth between two states: ids are only appended, and accumulated
document rows are only appended. -/
def GrowC2 (st st' : WFState) : Prop :=
  (∃ t, st'.previous_chunk_ids = st.previous_chunk_ids ++ t) ∧
  (∃ t, st'.previous_doc_ids = st.previous_doc_ids ++ t) ∧
  (∀ rows, st.final_docs = some rows → ∃ t, st'.final_docs = some (rows ++ t))

/-- The analysis string `run_iteration` obtains for a corpus row through
`analyze_documents` and the parallel utility. -/
def analysisValue (env : Env) (uq : String) (r : DocRow) : String :=
  sumFlat (parallelOutcome env.anaLLM (fmtAnalyzeDocument uq r))

/-- Python substring membership `sub in s`. -/
def pyInStr : List Char → List Char → Bool
  | sub, [] => sub.isEmpty
  | sub, c :: rest => sub.isPrefixOf (c :: rest) || pyInStr sub rest

/-- The model/budget fallback of `OpenRouterClient.call_with_reasoning`
(llm_client.py, lines 145-151), as a function of the requested model id, the
prompt's token count, and the configured `performance_high` / `fallback`
model ids and `fallback_token_limit`.  The Python guard is
`"google/gemini-2.5" not in model_id or config["models"]["performance_high"]`,
i.e. the substring test is disjoined with the truthiness of the configured
`performance_high` string. -/
def call_with_reasoning_model (performance_high fallback : String)
    (fallback_token_limit : Nat) (model_id : String) (token_count : Nat) : String :=
  if !(pyInStr "google/gemini-2.5".toList model_id.toList) ||
      !performance_high.isEmpty then
    if fallback_token_limit < token_count then fallback else model_id
  else model_id

/-- Concrete corpus rows for witnesses and counterexamples. -/
def docRow1 : DocRow := { identifier := 1, title := "T1", text := "X1", date := "D1", link := "L1" }

def docRow2 : DocRow := { identifier := 2, title := "T2", text := "X2", date := "D2", link := "L2" }

def docs0 : List DocRow := [docRow1, docRow2]

/-- An iteration environment in which every stage succeeds: one query, one
fresh passage owned by document 1, a relevance verdict of `"true"`, analysis
text `"A"`, and a reflection verdict of `false` (continue). -/
def envA : Env :=
  { queries := ["q1"]
    searchRows := [{ identifier := 1, chunk_text := "c1", uuid := "u1" }]
    relLLM := fun _ => .ok (some "\x7b\"reasoning\": \"ok\", \"relevance\": \"true\"\x7d")
    anaLLM := fun _ => .ok "A"
    reflectResp := some "\x7b\"finished\": false, \"reflection\": \"more\"\x7d" }

/-- An environment whose query generator returns zero queries. -/
def envB : Env := { envA with queries := [] }

/-- An environment whose reflection response carries the string "no" in the
`finished` field. -/
def envC : Env :=
  { envA with reflectResp := some "\x7b\"finished\": \"no\", \"reflection\": \"r\"\x7d" }

/-- The parsed-JSON item `_parse_relevance_results` receives for one passage
row: the structured call's message content, or the inline error string when
the call raised inside the parallel batch. -/
def relItemOf (llm : String → Except String (Option String)) (uq : String)
    (r : SearchRow) : Option String :=
  sumToItem (parallelOutcome llm (fmtFormatResult uq r.chunk_text))

/-- The non-raising value of `relCheckOne` (meaningful when it does not raise
`AttributeError`). -/
def verdictOf (item : Option String) : JVal × JVal :=
  match relCheckOne item with
  | .ok c => c
  | .error _ => (.jnull, .jnull)

/-- The state `run_iteration` reaches on the concrete first iteration
`docs0` / `envA`-with-overridden-reflection, just before returning: only the
recorded consideration depends on the reflection response. -/
def stAfterReflect (considerations : JVal) : WFState :=
  { previous_queries := ["q1"]
    previous_chunk_ids := ["u1"]
    previous_doc_ids := [1]
    previous_considerations := [considerations]
    previous_analysis_results := ["A"]
    final_docs := some [(docRow1, "A")]
    iteration := 0 }

/-- Three passage rows with distinguishable chunk texts, for the C8 witness. -/
def srow81 : SearchRow := { identifier := 1, chunk_text := "c1", uuid := "u1" }

def srow82 : SearchRow := { identifier := 2, chunk_text := "c2", uuid := "u2" }

def srow83 : SearchRow := { identifier := 3, chunk_text := "c3", uuid := "u3" }

def rows8 : List SearchRow := [srow81, srow82, srow83]

/-- A relevance oracle answering `true` for `c1`, `false` for `c2`, and
raising (inside the parallel batch) for every other passage. -/
def llm8 : String → Except String (Option String) := fun p =>
  if p = fmtFormatResult "q" "c1" then
    .ok (some "\x7b\"reasoning\": \"r1\", \"relevance\": true\x7d")
  else if p = fmtFormatResult "q" "c2" then
    .ok (some "\x7b\"reasoning\": \"r2\", \"relevance\": false\x7d")
  else .error "boom"

theorem dedupKeepFirstAux_sublist {α κ : Type} [DecidableEq κ] (key : α → κ) :
    ∀ (l : List α) (seen : List κ), (dedupKeepFirstAux key seen l).Sublist l := by
  intro l
  induction l with
  | nil => intro seen; simp [dedupKeepFirstAux]
  | cons x xs ih =>
    intro seen
    simp only [dedupKeepFirstAux]
    split
    · exact (ih seen).trans (List.sublist_cons_self x xs)
    · exact (ih (key x :: seen)).cons₂ x

theorem dedupKeepFirstAux_key_nodup {α κ : Type} [DecidableEq κ] (key : α → κ) :
    ∀ (l : List α) (seen : List κ),
      ((dedupKeepFirstAux key seen l).map key).Nodup ∧
      ∀ x ∈ dedupKeepFirstAux key seen l, key x ∉ seen := by
  intro l
  induction l with
  | nil => intro seen; simp [dedupKeepFirstAux]
  | cons x xs ih =>
    intro seen
    simp only [dedupKeepFirstAux]
    split
    · exact ih seen
    · rename_i hx
      obtain ⟨hnd, hns⟩ := ih (key x :: seen)
      refine ⟨?_, ?_⟩
      · simp only [List.map_cons, List.nodup_cons]
        constructor
        · intro hmem
          obtain ⟨y, hy, hky⟩ := List.mem_map.mp hmem
          exact hns y hy (hky ▸ List.mem_cons_self _ _)
        · exact hnd
      · intro y hy
        rcases List.mem_cons.mp hy with rfl | hy'
        · exact hx
        · exact fun hsn => hns y hy' (List.mem_cons_of_mem _ hsn)

theorem dedupKeepFirst_key_nodup {α κ : Type} [DecidableEq κ] (key : α → κ)
    (l : List α) : ((dedupKeepFirst key l).map key).Nodup :=
  (dedupKeepFirstAux_key_nodup key l []).1

theorem dedupKeepFirst_sublist {α κ : Type} [DecidableEq κ] (key : α → κ)
    (l : List α) : (dedupKeepFirst key l).Sublist l :=
  dedupKeepFirstAux_sublist key l []

theorem dedupKeepFirst_id_nodup {κ : Type} [DecidableEq κ] (l : List κ) :
    (dedupKeepFirst (fun u => u) l).Nodup := by
  have := dedupKeepFirst_key_nodup (fun u => u) l
  simpa using this

/-- C1: evaluating the budget-fallback guard of `call_with_reasoning` at an
allowlisted model id: `"google/gemini-2.5-pro"` contains the substring
`"google/gemini-2.5"`, yet with any non-empty configured `performance_high`
model id and an over-ceiling token count the requested id is replaced by the
configured fallback - the claim (and the comment in the source) say an
allowlisted id is used unchanged. -/
theorem c1_gemini_allowlist_bypassed_eval :
    pyInStr "google/gemini-2.5".toList "google/gemini-2.5-pro".toList = true ∧
    call_with_reasoning_model "openai/gpt-5-mini" "openai/gpt-4.1" 200000
      "google/gemini-2.5-pro" 200001 = "openai/gpt-4.1" ∧
    "openai/gpt-4.1" ≠ "google/gemini-2.5-pro" :=
  ⟨by decide, by decide, by decide⟩

/-- C3: with the query generator returning zero queries on iteration 0, the
default `status_callback=None` makes `run_iteration` raise
`TypeError: 'NoneType' object is not callable` at the unguarded
`status_callback(...)` call, instead of returning; with a callable callback
it returns `(False, None)` - the accumulated document collection is the
initial `None`, not an empty collection. -/
theorem c3_zero_queries_none_callback_raises :
    run_iteration docs0 initialize_state "q" 0 false true envB =
      .error .noneNotCallable ∧
    run_iteration docs0 initialize_state "q" 0 true true envB =
      .ok (initialize_state, .jbool false, none) :=
  ⟨rfl, rfl⟩

theorem schedStep_length {α β : Type} (l : List α) (f : α → Except String β)
    (init : List (Option (β ⊕ String))) (i : Nat) :
    (schedStep l f init i).length = init.length := by
  unfold schedStep
  split <;> simp [List.length_set]

theorem schedStep_ne {α β : Type} (l : List α) (f : α → Except String β)
    (init : List (Option (β ⊕ String))) (i j : Nat) (hij : i ≠ j) :
    (schedStep l f init i)[j]? = init[j]? := by
  unfold schedStep
  split
  · exact List.getElem?_set_ne hij
  · rfl

theorem sched_foldl_length {α β : Type} (l : List α) (f : α → Except String β) :
    ∀ (order : List Nat) (init : List (Option (β ⊕ String))),
      (order.foldl (schedStep l f) init).length = init.length := by
  intro order
  induction order with
  | nil => intro init; rfl
  | cons i rest ih =>
    intro init
    simp only [List.foldl_cons]
    rw [ih, schedStep_length]

theorem sched_foldl_not_mem {α β : Type} (l : List α) (f : α → Except String β)
    (j : Nat) :
    ∀ (order : List Nat) (init : List (Option (β ⊕ String))), j ∉ order →
      (order.foldl (schedStep l f) init)[j]? = init[j]? := by
  intro order
  induction order with
  | nil => intro init _; rfl
  | cons i rest ih =>
    intro init hj
    simp only [List.foldl_cons]
    rw [ih _ (fun h => hj (List.mem_cons_of_mem _ h))]
    exact schedStep_ne l f init i j
      (fun h => hj (by rw [← h]; exact List.mem_cons_self i rest))

theorem sched_foldl_mem {α β : Type} (l : List α) (f : α → Except String β)
    (j : Nat) (hj : j < l.length) :
    ∀ (order : List Nat) (init : List (Option (β ⊕ String))),
      init.length = l.length → j ∈ order →
      (order.foldl (schedStep l f) init)[j]? =
        some (some (parallelOutcome f l[j])) := by
  intro order
  induction order with
  | nil => intro init _ h; exact absurd h (List.not_mem_nil j)
  | cons i rest ih =>
    intro init hlen hj'
    by_cases hr : j ∈ rest
    · simp only [List.foldl_cons]
      exact ih _ (by rw [schedStep_length, hlen]) hr
    · have hij : i = j := by
        rcases List.mem_cons.mp hj' with h | h
        · exact h.symm
        · exact absurd h hr
      subst hij
      simp only [List.foldl_cons]
      rw [sched_foldl_not_mem l f i rest _ hr]
      unfold schedStep
      rw [List.getElem?_eq_getElem hj]
      exact List.getElem?_set_self (by rw [hlen]; exact hj)

/-- C5: the thread-pool execution of `call_function_in_parallel` produces,
for every completion order of the N futures, exactly one result per prompt,
with `result[i]` the call's return value on `prompt[i]` when it succeeds and
the inline `"Error: ..."` value when it raises; index alignment is
independent of the completion order. -/
theorem c5_parallel_index_aligned {α β : Type} (prompt_list : List α)
    (f : α → Except String β) (order : List Nat)
    (hperm : order.Perm (List.range prompt_list.length)) :
    call_function_in_parallel_sched prompt_list f order =
      (call_function_in_parallel prompt_list f).map some ∧
    (call_function_in_parallel prompt_list f).length = prompt_list.length ∧
    ∀ (i : Nat) (h : i < prompt_list.length),
      (call_function_in_parallel prompt_list f)[i]? =
        some (match f prompt_list[i] with
              | .ok b => .inl b
              | .error e => .inr ("Error: " ++ e)) := by
  refine ⟨?_, by simp [call_function_in_parallel], ?_⟩
  · apply List.ext_getElem?
    intro n
    by_cases hn : n < prompt_list.length
    · rw [call_function_in_parallel_sched, sched_foldl_mem prompt_list f n hn order _
        (by simp) (hperm.mem_iff.mpr (List.mem_range.mpr hn))]
      simp [call_function_in_parallel, List.getElem?_map, List.getElem?_eq_getElem hn]
    · have h1 : (call_function_in_parallel_sched prompt_list f order).length ≤ n := by
        rw [call_function_in_parallel_sched, sched_foldl_length]
        simp only [List.length_replicate]
        omega
      have h2 : (((call_function_in_parallel prompt_list f).map some).length ≤ n) := by
        simp only [List.length_map, call_function_in_parallel]
        omega
      rw [List.getElem?_eq_none h1, List.getElem?_eq_none h2]
  · intro i h
    simp only [call_function_in_parallel, List.getElem?_map,
      List.getElem?_eq_getElem h, Option.map_some]
    rfl

/-- C5 witness: three prompts, the middle call raising, completed in the
order 2, 0, 1. -/
theorem c5_parallel_index_aligned_witness :
    ([2, 0, 1] : List Nat).Perm (List.range ([10, 11, 12] : List Nat).length) ∧
    call_function_in_parallel_sched [10, 11, 12]
        (fun n => if n = 11 then .error "boom" else .ok (n + 1)) [2, 0, 1] =
      (call_function_in_parallel [10, 11, 12]
        (fun n => if n = 11 then .error "boom" else .ok (n + 1))).map some :=
  ⟨by decide,
   (c5_parallel_index_aligned [10, 11, 12]
     (fun n => if n = 11 then .error "boom" else .ok (n + 1)) [2, 0, 1] (by decide)).1⟩

set_option maxRecDepth 8000 in
/-- C9: `analyze_documents` does not order its output by the `document_ids`
argument: with corpus order `[1, 2]` and `document_ids = [2, 1]`, the first
result is the analysis of document 1 (the first corpus row), not of
document 2 = `document_ids[0]`; the two analyses are distinguishable. -/
theorem c9_order_counterexample :
    (analyze_documents "q" [2, 1] docs0 Except.ok)[0]? =
      some (fmtAnalyzeDocument "q" docRow1) ∧
    docRow1.identifier = 1 ∧
    fmtAnalyzeDocument "q" docRow1 ≠ fmtAnalyzeDocument "q" docRow2 :=
  ⟨by decide, rfl, by decide⟩

/-- C9 amended: the output of `analyze_documents` is index-aligned with the
corpus-ordered row selection `data[data["identifier"].isin(document_ids)]`:
entry `i` is the (possibly inline-error) analysis of the `i`-th corpus row
whose identifier is in `document_ids`, regardless of the order of
`document_ids`. -/
theorem c9_corpus_order_amended (uq : String) (document_ids : List Int)
    (data : List DocRow) (call : String → Except String String) (i : Nat) :
    (analyze_documents uq document_ids data call)[i]? =
      ((data.filter (fun r => decide (r.identifier ∈ document_ids)))[i]?).map
        (fun r => sumFlat (parallelOutcome call (fmtAnalyzeDocument uq r))) := by
  simp [analyze_documents, call_function_in_parallel, List.getElem?_map,
    List.map_map]
  rfl

/-- C8: a passage whose structured response parses to a truthy non-object
JSON value (here the valid JSON text `3`) makes `_parse_relevance_results`
call `.get` on a non-dict, raising `AttributeError` out of `check_relevance`
instead of discarding the row. -/
theorem c8_nonobject_response_raises_counterexample :
    check_relevance "q" [{ identifier := 1, chunk_text := "c1", uuid := "u1" }]
      (fun _ => .ok (some "3")) = .error .attributeErrorGet := rfl

theorem parse_relevance_all_ok :
    ∀ (items : List (Option String)),
      (∀ it ∈ items, (relCheckOne it).isOk = true) →
      parse_relevance_results items = .ok (items.map verdictOf) := by
  intro items
  induction items with
  | nil => intro _; rfl
  | cons it rest ih =>
    intro h
    have hit := h it (List.mem_cons_self _ _)
    simp only [parse_relevance_results, List.map_cons]
    cases hc : relCheckOne it with
    | error e => rw [hc] at hit; simp [Except.isOk, Except.toBool] at hit
    | ok c =>
      rw [ih (fun x hx => h x (List.mem_cons_of_mem _ hx))]
      simp [verdictOf, hc]

/-- C8 amended: provided every item's response is falsy, unparsable, or
parses to a JSON object (so that no `.get`-on-non-dict `AttributeError` is
raised), `check_relevance` returns exactly the rows whose own verdict
`_to_bool(parsed.get("relevance"))` is `True`; rows with `False` or unknown
verdicts (parse failures, missing or non-boolean fields, inline batch
errors) are discarded without retrying and without affecting other rows -
each row's fate depends only on its own response. -/
theorem c8_relevance_filter_amended (uq : String) (data : List SearchRow)
    (llm : String → Except String (Option String))
    (h : ∀ r ∈ data, (relCheckOne (relItemOf llm uq r)).isOk = true) :
    check_relevance uq data llm =
      .ok (data.filter (fun r => maskTrue (verdictOf (relItemOf llm uq r)).1)) := by
  simp only [check_relevance, call_function_in_parallel]
  rw [List.map_map, List.map_map]
  have hitems : (data.map ((sumToItem ∘ parallelOutcome llm) ∘ fun r => fmtFormatResult uq r.chunk_text)) =
      data.map (relItemOf llm uq) := by
    apply List.map_congr_left
    intro r _
    rfl
  rw [hitems, parse_relevance_all_ok _ (by
    intro it hit
    obtain ⟨r, hr, rfl⟩ := List.mem_map.mp hit
    exact h r hr)]
  rw [List.map_map]
  dsimp only
  have hzip := List.zip_map' (fun a : SearchRow => a) (verdictOf ∘ relItemOf llm uq) data
  rw [List.map_id'] at hzip
  rw [hzip, List.filter_map, List.map_map]
  rw [show ((fun (p : SearchRow × (JVal × JVal)) => maskTrue p.2.1) ∘
        fun a => (a, (verdictOf ∘ relItemOf llm uq) a)) =
      (fun r => maskTrue (verdictOf (relItemOf llm uq r)).1) from rfl]
  rw [show ((fun (p : SearchRow × (JVal × JVal)) => p.1) ∘
        fun a => (a, (verdictOf ∘ relItemOf llm uq) a)) =
      (fun (a : SearchRow) => a) from rfl]
  rw [List.map_id']

/-- C8 witness: three passages; the first gets verdict `true`, the second
`false`, the third raises inside the batch (inline error value); only the
first row is kept and no exception escapes. -/
theorem c8_relevance_filter_amended_witness :
    (∀ r ∈ rows8, (relCheckOne (relItemOf llm8 "q" r)).isOk = true) ∧
    check_relevance "q" rows8 llm8 = .ok [srow81] :=
  ⟨by decide, by rw [c8_relevance_filter_amended "q" rows8 llm8 (by decide)]; rfl⟩

/-- C7: the reflection verdict is not normalised: a reflection response whose
`finished` field is the string `"no"` (which `_to_bool` maps to `False`, and
which the claim says must yield finished = false) makes `run_iteration`
return the truthy value `"no"` as its finished flag, ending the run early;
`pyToBool` (the `_to_bool` embedding) sends the same value to `False`. -/
theorem c7_reflect_truthy_no_counterexample :
    (match run_iteration docs0 initialize_state "q" 0 true true envC with
     | .ok (_, fin, _) => fin
     | _ => .jnull) = .jstr "no".toList ∧
    pyTruthy (.jstr "no".toList) = true ∧
    pyToBool (.jstr "no".toList) = .jbool false :=
  ⟨by rfl, rfl, rfl⟩

/-- C7 amended: `run_iteration` (iterative mode) reports as its finished
flag the raw parsed `finished` value when that value is Python-truthy and
`False` otherwise - no `_to_bool` normalisation is applied to it.
Consequently an unparsable, falsy, or `finished`-less reflection response is
treated as not finished (conjuncts 2 and 3), but any truthy non-boolean
value - including the strings "no", "false" and "0" - ends the run early;
the case-insensitive boolean normalisation is applied only to relevance
verdicts. -/
theorem c7_reflect_amended :
    (∀ (resp : Option String) (f c : JVal),
       reflect_task_status resp = .ok (f, c) →
       run_iteration docs0 initialize_state "q" 0 true true
           { envA with reflectResp := resp } =
         .ok (stAfterReflect c, if pyTruthy f then f else .jbool false,
              some [(docRow1, "A")])) ∧
    (∀ s : String, parse_json_response s.toList = .jnull →
       reflect_task_status (some s) = .ok (.jnull, .jnull)) ∧
    reflect_task_status none = .ok (.jnull, .jnull) := by
  refine ⟨?_, ?_, rfl⟩
  · intro resp f c h
    have key : run_iteration docs0 initialize_state "q" 0 true true
        { envA with reflectResp := resp } =
        (match reflect_task_status resp with
         | .error e => .error e
         | .ok (finished, considerations) =>
           .ok (stAfterReflect considerations,
                if pyTruthy finished then finished else .jbool false,
                some [(docRow1, "A")])) := rfl
    rw [key, h]
  · intro s hs
    unfold reflect_task_status
    by_cases he : s.isEmpty
    · simp [he]
    · simp only [he, if_false, hs, Bool.false_eq_true]
      rfl

/-- C7 witness: an unparsable reflection response is reported as
finished = `False`, with `None` appended to the considerations. -/
theorem c7_reflect_amended_witness :
    run_iteration docs0 initialize_state "q" 0 true true
        { envA with reflectResp := some "garbage" } =
      .ok (stAfterReflect .jnull, if pyTruthy .jnull then .jnull else .jbool false,
           some [(docRow1, "A")]) :=
  c7_reflect_amended.1 (some "garbage") .jnull .jnull rfl

/-- C4: a starved stage does not stop an iterative run once documents have
been accumulated: with `max_iterations = 3`, iteration 0 succeeding and the
query generator of iteration 1 returning zero queries, the driver still
executes iteration 2 - three iterations run, where the claim requires the
run to stop at iteration 1. -/
theorem c4_starved_midrun_continues_counterexample :
    envB.queries = [] ∧
    driverCount (driver_loop docs0 "q" true 3 initialize_state 0
      [envA, envB, envB]) = 3 :=
  ⟨rfl, by decide⟩

/-- C4 amended: a starved stage ends the run at that iteration only when no
documents have been accumulated yet (`final_docs` still `None`, the `(False,
None)` return); in non-iterative mode the driver always stops after the
first iteration.  Otherwise (iterative mode, accumulated documents, below
the cap) the starvation return `(False, final_docs)` is indistinguishable
from an unfinished reflection and the driver proceeds to iteration k+1. -/
theorem c4_starvation_stop_amended :
    (∀ (docs : List DocRow) (uq : String) (iterative : Bool) (maxIter : Nat)
       (st : WFState) (k : Nat) (e : Env) (es : List Env) (st' : WFState)
       (fin : JVal),
       run_iteration docs st uq k true iterative e = .ok (st', fin, none) →
       driver_loop docs uq iterative maxIter st k (e :: es) = .ok (1, st')) ∧
    (∀ (docs : List DocRow) (uq : String) (maxIter : Nat) (st : WFState)
       (k : Nat) (e : Env) (es : List Env),
       driver_loop docs uq false maxIter st k (e :: es) =
         match run_iteration docs st uq k true false e with
         | .error err => .error err
         | .ok (st', _, _) => .ok (1, st')) := by
  constructor
  · intro docs uq iterative maxIter st k e es st' fin h
    unfold driver_loop
    rw [h]
    simp [Option.isNone]
  · intro docs uq maxIter st k e es
    unfold driver_loop
    cases h : run_iteration docs st uq k true false e with
    | error err => rfl
    | ok out =>
      obtain ⟨st', fin, fd⟩ := out
      simp only
      split
      · rfl
      · simp

/-- C4 amended witness: iteration 0 starves with no accumulated documents;
the driver stops after that single iteration even though another environment
is queued. -/
theorem c4_starvation_stop_amended_witness :
    driver_loop docs0 "q" true 3 initialize_state 0 [envB, envA] =
      .ok (1, initialize_state) :=
  c4_starvation_stop_amended.1 docs0 "q" true 3 initialize_state 0 envB [envA]
    initialize_state (.jbool false) rfl

theorem zip_self_map {α β : Type} (l : List α) (g : α → β) :
    l.zip (l.map g) = l.map (fun x => (x, g x)) := by
  have h := List.zip_map' (fun a : α => a) g l
  rw [List.map_id'] at h
  exact h

theorem analyze_documents_eq_map (uq : String) (ids : List Int)
    (docs : List DocRow) (call : String → Except String String) :
    analyze_documents uq ids docs call =
      (docs.filter (fun r => decide (r.identifier ∈ ids))).map
        (fun r => sumFlat (parallelOutcome call (fmtAnalyzeDocument uq r))) := by
  simp only [analyze_documents, call_function_in_parallel]
  rw [List.map_map, List.map_map]
  rfl

theorem dedupKeepFirst_mem {α κ : Type} [DecidableEq κ] (key : α → κ)
    {l : List α} {x : α} (hx : x ∈ dedupKeepFirst key l) : x ∈ l :=
  (dedupKeepFirst_sublist key l).subset hx

theorem chunk_extension_nodup (old : List String) (rows : List SearchRow)
    (hold : old.Nodup) :
    (old ++ dedupKeepFirst (fun u => u)
      (((dedupKeepFirst (fun r => r.uuid) rows).filter
        (fun r => decide (r.uuid ∉ old))).map (fun r => r.uuid))).Nodup := by
  rw [List.nodup_append]
  refine ⟨hold, dedupKeepFirst_id_nodup _, ?_⟩
  intro x hx hx'
  have hx2 := dedupKeepFirst_mem (fun u => u) hx'
  obtain ⟨r, hr, rfl⟩ := List.mem_map.mp hx2
  have := (List.mem_filter.mp hr).2
  rw [decide_eq_true_eq] at this
  exact this hx

theorem docids_extension_nodup (old ids : List Int) (hold : old.Nodup) :
    (old ++ (dedupKeepFirst (fun x => x) ids).filter
      (fun x => decide (x ∉ old))).Nodup := by
  rw [List.nodup_append]
  refine ⟨hold, List.Nodup.filter _ (dedupKeepFirst_id_nodup ids), ?_⟩
  intro x hx hx'
  have := (List.mem_filter.mp hx').2
  rw [decide_eq_true_eq] at this
  exact this hx

theorem filtered_mem_new_ids (old ids : List Int) (x : Int)
    (hx : x ∈ (dedupKeepFirst (fun y => y) ids).filter (fun y => decide (y ∉ old))) :
    x ∉ old :=
  (decide_eq_true_eq.mp (List.mem_filter.mp hx).2)

theorem tmp_rows_shape (docs : List DocRow) (rel : List Int) (env : Env)
    (uq : String) :
    (docs.filter (fun r => decide (r.identifier ∈ rel))).zip
        (analyze_documents uq rel docs env.anaLLM) =
      (docs.filter (fun r => decide (r.identifier ∈ rel))).map
        (fun r => (r, analysisValue env uq r)) := by
  rw [analyze_documents_eq_map, zip_self_map]
  rfl

theorem tmp_rows_ids (docs : List DocRow) (rel : List Int) (env : Env)
    (uq : String) :
    rowIds ((docs.filter (fun r => decide (r.identifier ∈ rel))).zip
        (analyze_documents uq rel docs env.anaLLM)) =
      (docs.filter (fun r => decide (r.identifier ∈ rel))).map
        (fun r => r.identifier) := by
  rw [tmp_rows_shape, rowIds, List.map_map]
  rfl

theorem tmp_rows_ids_nodup (docs : List DocRow) (rel : List Int) (env : Env)
    (uq : String) (hdocs : (docs.map (fun r => r.identifier)).Nodup) :
    (rowIds ((docs.filter (fun r => decide (r.identifier ∈ rel))).zip
        (analyze_documents uq rel docs env.anaLLM))).Nodup := by
  rw [tmp_rows_ids]
  exact ((List.filter_sublist docs).map (fun r => r.identifier)).nodup hdocs

theorem tmp_rows_ids_mem (docs : List DocRow) (rel : List Int) (env : Env)
    (uq : String) (x : Int)
    (hx : x ∈ rowIds ((docs.filter (fun r => decide (r.identifier ∈ rel))).zip
        (analyze_documents uq rel docs env.anaLLM))) : x ∈ rel := by
  rw [tmp_rows_ids] at hx
  obtain ⟨r, hr, rfl⟩ := List.mem_map.mp hx
  exact decide_eq_true_eq.mp (List.mem_filter.mp hr).2

/-- C10: every row appended to `final_docs` by `run_iteration` carries the
analysis generated from that same row: `analyze_documents` and the
`final_docs` construction select and order rows by the same membership
filter over the same corpus, so the positional `analysis` column assignment
pairs each document with its own analysis. -/
theorem c10_rows_paired_with_own_analysis (docs : List DocRow) (st : WFState)
    (uq : String) (iteration : Nat) (cb : Bool) (iterative : Bool) (env : Env)
    (_hdocs : (docs.map (fun r => r.identifier)).Nodup)
    (h0 : iteration = 0 → st.final_docs = none)
    (st' : WFState) (fin : JVal) (rows' : List (DocRow × String))
    (h : run_iteration docs st uq iteration cb iterative env =
      .ok (st', fin, some rows')) :
    ∃ tmp, rows' = (if iteration = 0 then [] else st.final_docs.getD []) ++ tmp ∧
      ∀ p ∈ tmp, p.2 = analysisValue env uq p.1 := by
  have unchanged : st.final_docs = some rows' →
      ∃ tmp, rows' = (if iteration = 0 then [] else st.final_docs.getD []) ++ tmp ∧
        ∀ p ∈ tmp, p.2 = analysisValue env uq p.1 := by
    intro hrows
    by_cases hk : iteration = 0
    · rw [h0 hk] at hrows
      simp at hrows
    · refine ⟨[], ?_, by simp⟩
      simp [hk, hrows]
  have success : ∀ rel : List Int,
      (if iteration = 0 then
         some ((docs.filter (fun r => decide (r.identifier ∈ rel))).zip
           (analyze_documents uq rel docs env.anaLLM))
       else st.final_docs.map (fun old =>
         old ++ (docs.filter (fun r => decide (r.identifier ∈ rel))).zip
           (analyze_documents uq rel docs env.anaLLM))) = some rows' →
      ∃ tmp, rows' = (if iteration = 0 then [] else st.final_docs.getD []) ++ tmp ∧
        ∀ p ∈ tmp, p.2 = analysisValue env uq p.1 := by
    intro rel hfd
    by_cases hk : iteration = 0
    · rw [if_pos hk] at hfd
      injection hfd with he
      refine ⟨rows', by simp [hk], ?_⟩
      rw [← he, tmp_rows_shape]
      intro p hp
      obtain ⟨r, hr, rfl⟩ := List.mem_map.mp hp
      rfl
    · rw [if_neg hk] at hfd
      cases hold : st.final_docs with
      | none => rw [hold] at hfd; simp at hfd
      | some oldRows =>
        rw [hold] at hfd
        simp only [Option.map_some'] at hfd
        injection hfd with he
        refine ⟨(docs.filter (fun r => decide (r.identifier ∈ rel))).zip
          (analyze_documents uq rel docs env.anaLLM), ?_, ?_⟩
        · rw [← he]
          simp [hk, hold]
        · rw [tmp_rows_shape]
          intro p hp
          obtain ⟨r, hr, rfl⟩ := List.mem_map.mp hp
          rfl
  simp only [run_iteration] at h
  split at h
  · split at h
    · injection h with h'
      exact unchanged (congrArg (fun t => t.2.2) h')
    · simp at h
  · split at h
    · simp at h
    · split at h
      · injection h with h'
        exact unchanged (congrArg (fun t => t.2.2) h')
      · split at h
        · simp at h
        · split at h
          · injection h with h'
            exact unchanged (congrArg (fun t => t.2.2) h')
          · split at h
            · simp at h
            · rename_i fd' hfd'
              dsimp only at hfd'
              split at h
              · injection h with h'
                have h3 : some fd' = some rows' := congrArg (fun t => t.2.2) h'
                injection h3 with h4
                subst h4
                exact success _ hfd'
              · split at h
                · simp at h
                · injection h with h'
                  have h3 : some fd' = some rows' := congrArg (fun t => t.2.2) h'
                  injection h3 with h4
                  subst h4
                  exact success _ hfd'

/-- C10 witness: on the concrete first iteration the single appended row is
document 1 paired with the analysis obtained for document 1's own prompt. -/
theorem c10_rows_paired_witness :
    ∃ tmp, [(docRow1, "A")] =
        (if (0 : Nat) = 0 then [] else (initialize_state.final_docs).getD []) ++ tmp ∧
      ∀ p ∈ tmp, p.2 = analysisValue envA "q" p.1 :=
  c10_rows_paired_with_own_analysis docs0 initialize_state "q" 0 true true envA
    (by decide) (fun _ => rfl) (stAfterReflect (.jstr "more".toList)) (.jbool false)
    [(docRow1, "A")] rfl

theorem rowIds_append (a b : List (DocRow × String)) :
    rowIds (a ++ b) = rowIds a ++ rowIds b :=
  List.map_append _ _ _

theorem finalIds_some {st : WFState} {rows : List (DocRow × String)}
    (h : st.final_docs = some rows) : finalIds st = rowIds rows := by
  simp [finalIds, h]

theorem success_state_inv (docs : List DocRow) (st : WFState) (uq : String)
    (iteration : Nat) (env : Env) (rel : List Int) (fd' : List (DocRow × String))
    (hdocs : (docs.map (fun r => r.identifier)).Nodup)
    (hrel : ∀ x ∈ rel, x ∉ st.previous_doc_ids)
    (hf : (finalIds st).Nodup)
    (hsub : ∀ i ∈ finalIds st, i ∈ st.previous_doc_ids)
    (h0 : iteration = 0 → st.final_docs = none)
    (hfd : (if iteration = 0 then
        some ((docs.filter (fun r => decide (r.identifier ∈ rel))).zip
          (analyze_documents uq rel docs env.anaLLM))
      else st.final_docs.map (fun old =>
        old ++ (docs.filter (fun r => decide (r.identifier ∈ rel))).zip
          (analyze_documents uq rel docs env.anaLLM))) = some fd') :
    (rowIds fd').Nodup ∧ (∀ x ∈ rowIds fd', x ∈ st.previous_doc_ids ++ rel) ∧
    (∀ rows, st.final_docs = some rows → ∃ t, fd' = rows ++ t) := by
  by_cases hk : iteration = 0
  · rw [if_pos hk] at hfd
    injection hfd with he
    subst he
    refine ⟨tmp_rows_ids_nodup docs rel env uq hdocs, ?_, ?_⟩
    · intro x hx
      exact List.mem_append_right _ (tmp_rows_ids_mem docs rel env uq x hx)
    · intro rows hrows
      rw [h0 hk] at hrows
      simp at hrows
  · rw [if_neg hk] at hfd
    cases hold : st.final_docs with
    | none => rw [hold] at hfd; simp at hfd
    | some oldRows =>
      rw [hold] at hfd
      simp only [Option.map_some'] at hfd
      injection hfd with he
      subst he
      have hfo : finalIds st = rowIds oldRows := finalIds_some hold
      refine ⟨?_, ?_, ?_⟩
      · rw [rowIds_append, List.nodup_append]
        refine ⟨hfo ▸ hf, tmp_rows_ids_nodup docs rel env uq hdocs, ?_⟩
        intro x hxo hxt
        have hx1 : x ∈ st.previous_doc_ids := hsub x (hfo ▸ hxo)
        exact hrel x (tmp_rows_ids_mem docs rel env uq x hxt) hx1
      · intro x hx
        rw [rowIds_append] at hx
        rcases List.mem_append.mp hx with hxo | hxt
        · exact List.mem_append_left _ (hsub x (hfo ▸ hxo))
        · exact List.mem_append_right _ (tmp_rows_ids_mem docs rel env uq x hxt)
      · intro rows hrows
        injection hrows with hre
        subst hre
        exact ⟨_, rfl⟩

theorem run_iteration_step (docs : List DocRow) (st : WFState) (uq : String)
    (iteration : Nat) (cb : Bool) (iterative : Bool) (env : Env)
    (hdocs : (docs.map (fun r => r.identifier)).Nodup)
    (hst : InvC2 st) (h0 : iteration = 0 → st.final_docs = none)
    (st' : WFState) (fin : JVal) (fd : Option (List (DocRow × String)))
    (h : run_iteration docs st uq iteration cb iterative env = .ok (st', fin, fd)) :
    InvC2 st' ∧ GrowC2 st st' := by
  obtain ⟨hc, hd, hf, hsub⟩ := hst
  simp only [run_iteration] at h
  split at h
  · split at h
    · injection h with h'
      injection h' with h1 h2
      subst h1
      exact ⟨⟨hc, hd, hf, hsub⟩,
        ⟨[], (List.append_nil _).symm⟩, ⟨[], (List.append_nil _).symm⟩,
        fun rows hr => ⟨[], by rw [List.append_nil]; exact hr⟩⟩
    · simp at h
  · split at h
    · simp at h
    · split at h
      · injection h with h'
        injection h' with h1 h2
        subst h1
        exact ⟨⟨chunk_extension_nodup st.previous_chunk_ids env.searchRows hc,
            hd, hf, hsub⟩,
          ⟨_, rfl⟩, ⟨[], (List.append_nil _).symm⟩,
          fun rows hr => ⟨[], by rw [List.append_nil]; exact hr⟩⟩
      · split at h
        · simp at h
        · rename_i rc hrc
          split at h
          · injection h with h'
            injection h' with h1 h2
            subst h1
            exact ⟨⟨chunk_extension_nodup st.previous_chunk_ids env.searchRows hc,
                docids_extension_nodup st.previous_doc_ids
                  (rc.map (fun r => r.identifier)) hd,
                hf, fun i hi => List.mem_append_left _ (hsub i hi)⟩,
              ⟨_, rfl⟩, ⟨_, rfl⟩,
              fun rows hr => ⟨[], by rw [List.append_nil]; exact hr⟩⟩
          · split at h
            · simp at h
            · rename_i fd' hfd'
              dsimp only at hfd'
              have hrel : ∀ x ∈ (dedupKeepFirst (fun x => x)
                  (rc.map (fun r => r.identifier))).filter
                    (fun x => decide (x ∉ st.previous_doc_ids)),
                  x ∉ st.previous_doc_ids :=
                fun x hx => filtered_mem_new_ids st.previous_doc_ids _ x hx
              have hkey := success_state_inv docs st uq iteration env _ fd'
                hdocs hrel hf hsub h0 hfd'
              split at h
              · injection h with h'
                injection h' with h1 h2
                subst h1
                refine ⟨⟨chunk_extension_nodup st.previous_chunk_ids env.searchRows hc,
                    docids_extension_nodup st.previous_doc_ids
                      (rc.map (fun r => r.identifier)) hd,
                    hkey.1, hkey.2.1⟩,
                  ⟨_, rfl⟩, ⟨_, rfl⟩, ?_⟩
                intro rows hr
                obtain ⟨t, ht⟩ := hkey.2.2 rows hr
                exact ⟨t, by show some fd' = some (rows ++ t); rw [ht]⟩
              · split at h
                · simp at h
                · injection h with h'
                  injection h' with h1 h2
                  subst h1
                  refine ⟨⟨chunk_extension_nodup st.previous_chunk_ids env.searchRows hc,
                      docids_extension_nodup st.previous_doc_ids
                        (rc.map (fun r => r.identifier)) hd,
                      hkey.1, hkey.2.1⟩,
                    ⟨_, rfl⟩, ⟨_, rfl⟩, ?_⟩
                  intro rows hr
                  obtain ⟨t, ht⟩ := hkey.2.2 rows hr
                  exact ⟨t, by show some fd' = some (rows ++ t); rw [ht]⟩

theorem runTraceAux_sound (docs : List DocRow) (uq : String) (cb iterative : Bool)
    (hdocs : (docs.map (fun r => r.identifier)).Nodup) :
    ∀ (envs : List Env) (st : WFState) (k : Nat), InvC2 st →
      (k = 0 → st.final_docs = none) →
      (∀ x ∈ runTraceAux docs uq cb iterative st k envs, InvC2 x) ∧
      (runTraceAux docs uq cb iterative st k envs).Chain' GrowC2 := by
  intro envs
  induction envs with
  | nil =>
    intro st k hst _
    refine ⟨?_, by simp [runTraceAux]⟩
    intro x hx
    simp only [runTraceAux, List.mem_singleton] at hx
    subst hx
    exact hst
  | cons e es ih =>
    intro st k hst h0
    simp only [runTraceAux]
    cases hr : run_iteration docs st uq k cb iterative e with
    | error err =>
      refine ⟨?_, by simp⟩
      intro x hx
      rcases List.mem_cons.mp hx with rfl | hx'
      · exact hst
      · simp at hx'
    | ok out =>
      obtain ⟨st', fin, fd⟩ := out
      have hstep := run_iteration_step docs st uq k cb iterative e hdocs hst h0
        st' fin fd hr
      have ihh := ih st' (k + 1) hstep.1 (fun hk => absurd hk (Nat.succ_ne_zero k))
      refine ⟨?_, ?_⟩
      · intro x hx
        rcases List.mem_cons.mp hx with rfl | hx'
        · exact hst
        · exact ihh.1 x hx'
      · rw [List.chain'_cons']
        refine ⟨?_, ihh.2⟩
        intro y hy
        have hhead : (runTraceAux docs uq cb iterative st' (k + 1) es).head? =
            some st' := by
          cases es <;> rfl
        rw [hhead, Option.mem_def, Option.some_inj] at hy
        subst hy
        exact hstep.2

/-- C2: along any run (the freshly initialized state followed by any number
of `run_iteration` calls numbered 0, 1, ...), provided the corpus has no
duplicate identifiers, every reached state satisfies the bookkeeping
invariant - `previous_chunk_ids` and `previous_doc_ids` are duplicate-free,
no document identifier appears on two `final_docs` rows, and every
accumulated id is recorded in `previous_doc_ids` (whose `not in` filters
shield it from re-filtering and re-analysis) - and consecutive states only
grow: ids are only appended and accumulated rows are only appended. -/
theorem c2_dedup_invariants_preserved (docs : List DocRow) (uq : String)
    (cb iterative : Bool) (envs : List Env)
    (hdocs : (docs.map (fun r => r.identifier)).Nodup) :
    (∀ st ∈ runTrace docs uq cb iterative envs, InvC2 st) ∧
    (runTrace docs uq cb iterative envs).Chain' GrowC2 :=
  runTraceAux_sound docs uq cb iterative hdocs envs initialize_state 0
    ⟨List.nodup_nil, List.nodup_nil, List.nodup_nil,
     fun i hi => absurd hi (List.not_mem_nil i)⟩
    (fun _ => rfl)

/-- C2 witness: a two-iteration run over the two-document corpus. -/
theorem c2_dedup_invariants_witness :
    (docs0.map (fun r => r.identifier)).Nodup ∧
    ((∀ st ∈ runTrace docs0 "q" true true [envA, envA], InvC2 st) ∧
     (runTrace docs0 "q" true true [envA, envA]).Chain' GrowC2) :=
  ⟨by decide, c2_dedup_invariants_preserved docs0 "q" true true [envA, envA]
    (by decide)⟩

theorem dropWhile_eq_self_head {l : List Char} {c : Char}
    (h : l.dropWhile pyIsSpace = l) (hc : l.head? = some c) :
    pyIsSpace c = false := by
  cases l with
  | nil => simp at hc
  | cons d t =>
    injection hc with hc
    subst hc
    by_contra hs
    rw [List.dropWhile_cons, if_pos (Bool.of_not_eq_false hs)] at h
    have := (@List.dropWhile_suffix Char t pyIsSpace).sublist.length_le
    have h2 := congrArg List.length h
    simp at h2
    omega

theorem pyStrip_drop_parts {p : List Char} (h : pyStrip p = p) :
    p.dropWhile pyIsSpace = p ∧ p.reverse.dropWhile pyIsSpace = p.reverse := by
  have hsfx1 : (p.dropWhile pyIsSpace).length ≤ p.length :=
    (@List.dropWhile_suffix Char p pyIsSpace).sublist.length_le
  have hsfx2 : ((p.dropWhile pyIsSpace).reverse.dropWhile pyIsSpace).length ≤
      (p.dropWhile pyIsSpace).length := by
    have := (@List.dropWhile_suffix
      Char ((p.dropWhile pyIsSpace).reverse) pyIsSpace).sublist.length_le
    simpa using this
  have hlen : (pyStrip p).length = p.length := congrArg List.length h
  rw [pyStrip, List.length_reverse] at hlen
  have hlen1 : (p.dropWhile pyIsSpace).length = p.length := by omega
  have he1 : p.dropWhile pyIsSpace = p :=
    (List.dropWhile_suffix pyIsSpace).sublist.eq_of_length hlen1
  refine ⟨he1, ?_⟩
  have hlen2 : (p.reverse.dropWhile pyIsSpace).length = p.reverse.length := by
    rw [he1] at hlen
    rw [List.length_reverse]
    omega
  exact (List.dropWhile_suffix pyIsSpace).sublist.eq_of_length hlen2

theorem pyStrip_head_not_space {p : List Char} {c : Char} (h : pyStrip p = p)
    (hc : p.head? = some c) : pyIsSpace c = false :=
  dropWhile_eq_self_head (pyStrip_drop_parts h).1 hc

theorem pyStrip_last_not_space {p : List Char} {c : Char} (h : pyStrip p = p)
    (hc : p.getLast? = some c) : pyIsSpace c = false :=
  dropWhile_eq_self_head (pyStrip_drop_parts h).2
    (by rw [List.head?_reverse]; exact hc)

theorem takeWhile_nil_of_strip {p : List Char} (h : pyStrip p = p)
    (hp : p ≠ []) : p.takeWhile pyIsSpace = [] := by
  cases p with
  | nil => exact absurd rfl hp
  | cons c t =>
    rw [List.takeWhile_cons, if_neg]
    rw [pyStrip_head_not_space h (rfl : (c :: t).head? = some c)]
    simp

theorem findFence_payload (p : List Char) (hb : btick ∉ p) :
    findFence (p ++ '\n' :: btick :: btick :: btick :: []) = some p := by
  induction p with
  | nil =>
    rw [List.nil_append, findFence]
    rw [if_pos]
    rfl
  | cons c t ih =>
    have hc : c ≠ btick := fun h => hb (by rw [← h]; exact List.mem_cons_self c t)
    have hbt : btick ∉ t := fun h => hb (List.mem_cons_of_mem c h)
    rw [List.cons_append, findFence, if_neg, ih hbt]
    · rfl
    · intro hpre
      have hlist : ("\n```".toList) = '\n' :: btick :: btick :: btick :: [] := rfl
      rw [hlist] at hpre
      rw [List.isPrefixOf] at hpre
      rw [Bool.and_eq_true, beq_iff_eq] at hpre
      obtain ⟨hc1, hpre⟩ := hpre
      subst hc1
      cases t with
      | nil =>
        rw [List.nil_append, List.isPrefixOf, Bool.and_eq_true, beq_iff_eq] at hpre
        exact absurd hpre.1.symm (by decide)
      | cons d t' =>
        rw [List.cons_append, List.isPrefixOf, Bool.and_eq_true, beq_iff_eq] at hpre
        exact hbt (by rw [hpre.1.symm]; exact List.mem_cons_self btick t')

theorem json_loads_btick (rest : List Char) : json_loads (btick :: rest) = none :=
  rfl

theorem takeWhile_nil_head {c : Char} {t : List Char}
    (h : (c :: t).takeWhile pyIsSpace = []) : pyIsSpace c = false := by
  rw [List.takeWhile_cons] at h
  by_contra hs
  rw [if_pos (Bool.of_not_eq_false hs)] at h
  simp at h

theorem pyStrip_eq_of_ends {l : List Char} {c d : Char} (hh : l.head? = some c)
    (hc : pyIsSpace c = false) (hl : l.getLast? = some d)
    (hd : pyIsSpace d = false) : pyStrip l = l := by
  unfold pyStrip
  cases l with
  | nil => rfl
  | cons a t =>
    have ha : a = c := by injection hh
    subst ha
    rw [List.dropWhile_cons, if_neg (by rw [hc]; simp)]
    cases hr : (a :: t).reverse with
    | nil =>
      rw [List.reverse_eq_nil_iff] at hr
      exact absurd hr (by simp)
    | cons e r =>
      have he : e = d := by
        have h2 := List.head?_reverse (a :: t)
        rw [hr, hl] at h2
        injection h2
      subst he
      rw [List.dropWhile_cons]
      rw [if_neg (by rw [hd]; simp)]
      rw [← hr]
      rw [List.reverse_reverse]

theorem fencedTail_newline (p : List Char) (hne : p ≠ [])
    (hp : p.takeWhile pyIsSpace = []) (hb : btick ∉ p) :
    fencedTail ('\n' :: (p ++ '\n' :: btick :: btick :: btick :: [])) = some p := by
  have hrun : (('\n' : Char) :: (p ++ '\n' :: btick :: btick :: btick :: [])).takeWhile
      pyIsSpace = ['\n'] := by
    rw [List.takeWhile_cons, if_pos (by decide)]
    cases p with
    | nil => exact absurd rfl hne
    | cons c t =>
      rw [List.cons_append, List.takeWhile_cons,
        if_neg (by rw [takeWhile_nil_head hp]; simp)]
  unfold fencedTail
  rw [hrun]
  rw [show (idxsOf ['\n'] 0).reverse = [0] from rfl]
  simp only [firstSome]
  rw [show (('\n' : Char) :: (p ++ '\n' :: btick :: btick :: btick :: [])).drop (0 + 1) =
    p ++ '\n' :: btick :: btick :: btick :: [] from rfl]
  rw [findFence_payload p hb]

theorem fencedAt_wrapped_json (p : List Char) (hne : p ≠ [])
    (hp : p.takeWhile pyIsSpace = []) (hb : btick ∉ p) :
    fencedAt (btick :: btick :: btick :: 'j' :: 's' :: 'o' :: 'n' :: '\n' ::
      (p ++ '\n' :: btick :: btick :: btick :: [])) = some p := by
  have h1 : ("```".toList).isPrefixOf (btick :: btick :: btick :: 'j' :: 's' :: 'o' ::
      'n' :: '\n' :: (p ++ '\n' :: btick :: btick :: btick :: [])) = true := by
    show (btick == btick && (btick == btick && (btick == btick && true))) = true
    simp
  have h2 : ("json".toList).isPrefixOf ('j' :: 's' :: 'o' :: 'n' :: '\n' ::
      (p ++ '\n' :: btick :: btick :: btick :: [])) = true := by
    show (('j' : Char) == 'j' && (('s' : Char) == 's' && (('o' : Char) == 'o' &&
      (('n' : Char) == 'n' && true)))) = true
    simp
  simp only [fencedAt, h1, if_true]
  rw [show (btick :: btick :: btick :: 'j' :: 's' :: 'o' :: 'n' :: '\n' ::
      (p ++ '\n' :: btick :: btick :: btick :: [])).drop 3 =
    'j' :: 's' :: 'o' :: 'n' :: '\n' :: (p ++ '\n' :: btick :: btick :: btick :: [])
    from rfl]
  simp only [h2, if_true]
  rw [show ('j' :: 's' :: 'o' :: 'n' :: '\n' ::
      (p ++ '\n' :: btick :: btick :: btick :: [])).drop 4 =
    '\n' :: (p ++ '\n' :: btick :: btick :: btick :: []) from rfl]
  rw [fencedTail_newline p hne hp hb]

theorem fencedAt_wrapped_plain (p : List Char) (hne : p ≠ [])
    (hp : p.takeWhile pyIsSpace = []) (hb : btick ∉ p) :
    fencedAt (btick :: btick :: btick :: '\n' ::
      (p ++ '\n' :: btick :: btick :: btick :: [])) = some p := by
  have h1 : ("```".toList).isPrefixOf (btick :: btick :: btick :: '\n' ::
      (p ++ '\n' :: btick :: btick :: btick :: [])) = true := by
    show (btick == btick && (btick == btick && (btick == btick && true))) = true
    simp
  have h2 : ("json".toList).isPrefixOf ('\n' ::
      (p ++ '\n' :: btick :: btick :: btick :: [])) = false := by
    show (('j' : Char) == '\n' && _) = false
    simp
  simp only [fencedAt, h1, if_true]
  rw [show (btick :: btick :: btick :: '\n' ::
      (p ++ '\n' :: btick :: btick :: btick :: [])).drop 3 =
    '\n' :: (p ++ '\n' :: btick :: btick :: btick :: []) from rfl]
  simp only [h2, Bool.false_eq_true, if_false]
  rw [fencedTail_newline p hne hp hb]

theorem fencedSearch_wrapped_json (p : List Char) (hne : p ≠ [])
    (hp : p.takeWhile pyIsSpace = []) (hb : btick ∉ p) :
    fencedSearch (btick :: btick :: btick :: 'j' :: 's' :: 'o' :: 'n' :: '\n' ::
      (p ++ '\n' :: btick :: btick :: btick :: [])) = some p := by
  simp only [fencedSearch]
  rw [fencedAt_wrapped_json p hne hp hb]

theorem fencedSearch_wrapped_plain (p : List Char) (hne : p ≠ [])
    (hp : p.takeWhile pyIsSpace = []) (hb : btick ∉ p) :
    fencedSearch (btick :: btick :: btick :: '\n' ::
      (p ++ '\n' :: btick :: btick :: btick :: [])) = some p := by
  simp only [fencedSearch]
  rw [fencedAt_wrapped_plain p hne hp hb]

/-- C6: the fallback only recognises fences tagged `json` or untagged - not
"any fence tag": the bare payload and its ` ```json `-fenced form parse to
the same object, but the same payload inside a ` ```python ` fence yields
the failure marker. -/
theorem c6_fence_tag_counterexample :
    parse_json_response "\x7b\"a\": true\x7d".toList =
      .jobj [("a".toList, .jbool true)] ∧
    parse_json_response "```json\n\x7b\"a\": true\x7d\n```".toList =
      .jobj [("a".toList, .jbool true)] ∧
    parse_json_response "```python\n\x7b\"a\": true\x7d\n```".toList = .jnull :=
  ⟨rfl, rfl, rfl⟩

/-- C6 amended: `_parse_json_response` returns the strict JSON parse of the
stripped input when that succeeds (first conjunct); when both the strict
parse and the fence search fail it returns the failure marker (second
conjunct); and bare payloads and fenced payloads parse to equal results for
the fence tags the regex `r"```(?:json)?\s*\n(.*?)\n```"` actually accepts -
`json` or no tag, with the payload on its own lines (third conjunct, for
payloads that are stripped, non-empty, and backtick-free). -/
theorem c6_parser_amended :
    (∀ (s : List Char) (v : JVal), s ≠ [] → json_loads (pyStrip s) = some v →
       parse_json_response s = v) ∧
    (∀ s : List Char, json_loads (pyStrip s) = none → fencedSearch s = none →
       parse_json_response s = .jnull) ∧
    (∀ (p : List Char) (v : JVal), pyStrip p = p → p ≠ [] → btick ∉ p →
       json_loads p = some v →
       parse_json_response ("```json\n".toList ++ p ++ "\n```".toList) = v ∧
       parse_json_response ("```\n".toList ++ p ++ "\n```".toList) = v ∧
       parse_json_response p = v) := by
  refine ⟨?_, ?_, ?_⟩
  · intro s v hne hv
    unfold parse_json_response
    rw [if_neg hne, hv]
  · intro s h1 h2
    unfold parse_json_response
    by_cases hne : s = []
    · rw [if_pos hne]
    · rw [if_neg hne, h1, h2]
  · intro p v hstrip hne hb hlv
    have hp' : p.takeWhile pyIsSpace = [] := takeWhile_nil_of_strip hstrip hne
    have hsfx : ("\n```".toList : List Char) = '\n' :: btick :: btick :: btick :: [] :=
      rfl
    have hpsfx : p ++ "\n```".toList = p ++ '\n' :: btick :: btick :: btick :: [] := by
      rw [hsfx]
    have hlastp : (p ++ "\n```".toList).getLast? = some btick := by
      rw [List.getLast?_append_of_ne_nil _ (by simp)]
      rfl
    refine ⟨?_, ?_, ?_⟩
    · have hwj : "```json\n".toList ++ p ++ "\n```".toList =
          btick :: btick :: btick :: 'j' :: 's' :: 'o' :: 'n' :: '\n' ::
            (p ++ '\n' :: btick :: btick :: btick :: []) := by
        rw [List.append_assoc, hpsfx]
        rfl
      have hlastW : (btick :: btick :: btick :: 'j' :: 's' :: 'o' :: 'n' :: '\n' ::
          (p ++ '\n' :: btick :: btick :: btick :: [])).getLast? = some btick := by
        rw [← hwj, List.append_assoc, List.getLast?_append_of_ne_nil _ (by simp), hpsfx]
        exact hlastp
      rw [hwj]
      unfold parse_json_response
      rw [if_neg (by simp)]
      rw [pyStrip_eq_of_ends (show (btick :: btick :: btick :: 'j' :: 's' :: 'o' ::
          'n' :: '\n' :: (p ++ ['\n', btick, btick, btick])).head? = some btick
          from rfl) (by decide) hlastW (by decide)]
      rw [json_loads_btick]
      rw [fencedSearch_wrapped_json p hne hp' hb]
      dsimp only
      rw [hstrip, hlv]
    · have hwp : "```\n".toList ++ p ++ "\n```".toList =
          btick :: btick :: btick :: '\n' ::
            (p ++ '\n' :: btick :: btick :: btick :: []) := by
        rw [List.append_assoc, hpsfx]
        rfl
      have hlastW : (btick :: btick :: btick :: '\n' ::
          (p ++ '\n' :: btick :: btick :: btick :: [])).getLast? = some btick := by
        rw [← hwp, List.append_assoc, List.getLast?_append_of_ne_nil _ (by simp), hpsfx]
        exact hlastp
      rw [hwp]
      unfold parse_json_response
      rw [if_neg (by simp)]
      rw [pyStrip_eq_of_ends (show (btick :: btick :: btick :: '\n' ::
          (p ++ ['\n', btick, btick, btick])).head? = some btick
          from rfl) (by decide) hlastW (by decide)]
      rw [json_loads_btick]
      rw [fencedSearch_wrapped_plain p hne hp' hb]
      dsimp only
      rw [hstrip, hlv]
    · unfold parse_json_response
      rw [if_neg hne, hstrip, hlv]

/-- C6 witness: the payload `[1, 2]` (stripped, non-empty, backtick-free,
valid JSON) parses identically bare and inside a `json`-tagged fence. -/
theorem c6_parser_amended_witness :
    parse_json_response ("```json\n".toList ++ "[1, 2]".toList ++ "\n```".toList) =
      .jarr [.jnum ['1'], .jnum ['2']] ∧
    parse_json_response "[1, 2]".toList = .jarr [.jnum ['1'], .jnum ['2']] :=
  ⟨(c6_parser_amended.2.2 "[1, 2]".toList (.jarr [.jnum ['1'], .jnum ['2']])
      rfl (by simp) (by decide) rfl).1,
   (c6_parser_amended.2.2 "[1, 2]".toList (.jarr [.jnum ['1'], .jnum ['2']])
      rfl (by simp) (by decide) rfl).2.2⟩
